import Mathlib

/-!
Verification development for a small Go HTTP router library (router-go).

The embedding translates the router core (route registration, template
compilation, request resolution, parameter binding), the CORS middleware
(origin matching, preflight header negotiation) and the rate limiter into
executable Lean definitions.  Go strings are modelled as `List Char`,
Go maps as association lists (insert-overwrite), and the anchored regular
expression compiled from a route template (`\{(\w+)\}` placeholders replaced
by `([^/]+)` capture groups) is modelled by a piece list together with a
greedy, backtracking matcher that mirrors the leftmost-first semantics the
Go regexp package documents for submatch capture.
-/

/-- Convert a string literal to the `List Char` representation used for Go strings. -/
def lstr (s : String) : List Char := s.toList

/-- Character class of the regexp escape w, which in Go is ASCII [0-9A-Za-z_]. -/
def isWordChar (c : Char) : Bool := c.isAlphanum || c == '_'

/-- ASCII lower casing of one character; models strings.ToLower on the
ASCII header/origin strings this library manipulates. -/
def lowerC (c : Char) : Char :=
  if 'A' ≤ c ∧ c ≤ 'Z' then Char.ofNat (c.toNat + 32) else c

/-- strings.ToLower restricted to ASCII input. -/
def toLowerL (s : List Char) : List Char := s.map lowerC

/-- ASCII white space, the fragment of unicode.IsSpace relevant to header lists. -/
def isSpaceC (c : Char) : Bool :=
  c == ' ' || c == '\t' || c == '\n' || c == '\x0b' || c == '\x0c' || c == '\r'

/-- strings.TrimSpace. -/
def trimSpaceL (s : List Char) : List Char :=
  ((s.dropWhile isSpaceC).reverse.dropWhile isSpaceC).reverse

/-- strings.Split with a one-character separator: yields count(sep)+1 parts. -/
def splitChar (sep : Char) : List Char → List (List Char)
  | [] => [[]]
  | c :: rest =>
    if c = sep then [] :: splitChar sep rest
    else
      match splitChar sep rest with
      | [] => [[c]]
      | r :: rs => (c :: r) :: rs

/-- strings.Join. -/
def joinSep (sep : List Char) : List (List Char) → List Char
  | [] => []
  | [x] => x
  | x :: xs => x ++ sep ++ joinSep sep xs

/-- strings.HasPrefix s pfx. -/
def goHasPrefixL : List Char → List Char → Bool
  | _, [] => true
  | [], _ :: _ => false
  | c :: s, p :: pfx => c == p && goHasPrefixL s pfx

/-- strings.HasSuffix s sfx. -/
def goHasSuffixL (s sfx : List Char) : Bool :=
  goHasPrefixL s.reverse sfx.reverse

/-- strings.TrimSuffix s sfx. -/
def goTrimSuffixL (s sfx : List Char) : List Char :=
  if goHasSuffixL s sfx then s.take (s.length - sfx.length) else s

/-- The list [n, n-1, ..., 1]: candidate capture lengths for a greedy
([^/]+) group, longest first. -/
def downFrom1 : Nat → List Nat
  | 0 => []
  | n + 1 => (n + 1) :: downFrom1 n

/-! ## Route templates

`Router.Handle` extracts parameter names with the regexp `\{(\w+)\}` and
compiles the template by replacing each placeholder with `([^/]+)` inside
`^...$` anchors.  A template is modelled as a list of pieces: literal
characters and named parameters. -/

/-- One piece of a compiled route template. -/
inductive Piece where
  | lit (c : Char)
  | param (name : List Char)
  deriving DecidableEq, Repr

/-- Fuel-driven scan for `\{(\w+)\}` occurrences: at a brace, a nonempty run
of word characters followed by a closing brace is a placeholder (the regexp
cannot match otherwise, since backtracking a shorter name still faces a word
character where it needs the closing brace); all other characters are
literals.  Fuel `length+1` always suffices because each step consumes at
least one character. -/
def parseT : Nat → List Char → List Piece
  | 0, _ => []
  | _ + 1, [] => []
  | fuel + 1, c :: rest =>
    if c = '{' then
      match rest.takeWhile isWordChar, rest.dropWhile isWordChar with
      | n :: ns, '}' :: rest2 => Piece.param (n :: ns) :: parseT fuel rest2
      | _, _ => Piece.lit c :: parseT fuel rest
    else Piece.lit c :: parseT fuel rest

/-- The piece list of a route template (models the compiled ParamPattern). -/
def parseTemplate (s : List Char) : List Piece := parseT (s.length + 1) s

/-- The ordered parameter names of a template (models the FindAllStringSubmatch
extraction of ParamKeys, which is driven by the same placeholder matches). -/
def paramNamesOf : List Piece → List (List Char)
  | [] => []
  | Piece.param n :: ps => n :: paramNamesOf ps
  | Piece.lit _ :: ps => paramNamesOf ps

/-- Greedy anchored matcher for a compiled template against a concrete path,
with Perl-style leftmost-first submatch semantics as documented for Go's
regexp package: a `([^/]+)` group prefers the longest capture and backtracks.
Structural on fuel; every recursive call consumes one fuel and one piece, so
fuel `pieces.length + 1` never runs out. -/
def matchP : Nat → List Piece → List Char → Option (List (List Char))
  | 0, _, _ => none
  | _ + 1, [], s => if s = [] then some [] else none
  | fuel + 1, Piece.lit c :: ps, s =>
    match s with
    | [] => none
    | c' :: s' => if c' = c then matchP fuel ps s' else none
  | fuel + 1, Piece.param _ :: ps, s =>
    (downFrom1 (s.takeWhile (fun c => !(c == '/'))).length).findSome?
      (fun n => (matchP fuel ps (s.drop n)).map (fun gs => s.take n :: gs))

/-- MatchString / FindStringSubmatch of the compiled anchored pattern:
`some groups` is a match with its captured groups, `none` is the nil result. -/
def matchPieces (ps : List Piece) (s : List Char) : Option (List (List Char)) :=
  matchP (ps.length + 1) ps s

/-- Substitute values for the placeholders of a template, in order. -/
def renderPieces : List Piece → List (List Char) → List Char
  | [], _ => []
  | Piece.lit c :: ps, vs => c :: renderPieces ps vs
  | Piece.param _ :: ps, [] => renderPieces ps []
  | Piece.param _ :: ps, v :: vs => v ++ renderPieces ps vs

/-- After a placeholder, the remaining template must start a new path segment
(a literal slash) or end; under this condition a slash-free substituted value
is recovered exactly by the greedy matcher. -/
def segStart : List Piece → Bool
  | [] => true
  | Piece.lit c :: _ => c == '/'
  | Piece.param _ :: _ => false

/-- Every placeholder of the template occupies a whole path segment. -/
def delimitedP : List Piece → Bool
  | [] => true
  | Piece.lit _ :: ps => delimitedP ps
  | Piece.param _ :: ps => segStart ps && delimitedP ps

/-- Characters that are special in Go regexp syntax.  Literal template text
containing them is spliced verbatim into the compiled pattern by
ReplaceAllString, so the piece model is faithful only away from them. -/
def regexSpecials : List Char := lstr "\\.^$|?*+()[]" ++ ['\x7b', '\x7d']

/-- The template's literal characters are not regexp metacharacters. -/
def litSafeP : List Piece → Bool
  | [] => true
  | Piece.lit c :: ps => !(regexSpecials.contains c) && litSafeP ps
  | Piece.param _ :: ps => litSafeP ps

/-! ## Router state -/

/-- The stored Route: middleware-wrapped handler, ordered ParamKeys, compiled
ParamPattern.  The handler type is a parameter of the model. -/
structure RouteE (α : Type) where
  handler : α
  paramKeys : List (List Char)
  pieces : List Piece
  deriving DecidableEq

/-- The Router: routes is the map path → method → Route flattened to an
association list keyed by (path, method) — iteration order of the Go map is
unspecified, so theorems about resolution quantify over list orders — and
the middleware slice. -/
structure RouterC (α : Type) where
  routes : List ((List Char × List Char) × RouteE α)
  middleware : List (α → α)

/-- The wrapping loop of Handle: `for i := len-1; i >= 0; i--` applies
middleware[len-1] first (innermost) and middleware[0] last (outermost), which
is exactly this right-fold nesting. -/
def applyMws {α : Type} : List (α → α) → α → α
  | [], h => h
  | mw :: rest, h => mw (applyMws rest h)

/-- Go map assignment routes[path][method] = route: overwrite the key if
present (order of unaffected entries is irrelevant, see RouterC.routes). -/
def insertRouteE {α : Type} (rs : List ((List Char × List Char) × RouteE α))
    (k : List Char × List Char) (rt : RouteE α) :
    List ((List Char × List Char) × RouteE α) :=
  rs.filter (fun e => decide (e.1 ≠ k)) ++ [(k, rt)]

/-- Map lookup routes[path][method]. -/
def lookupRouteE {α : Type} :
    List ((List Char × List Char) × RouteE α) → (List Char × List Char) →
    Option (RouteE α)
  | [], _ => none
  | e :: rest, k => if e.1 = k then some e.2 else lookupRouteE rest k

/-- Router.Handle: wrap the handler with the middleware active now, extract
the parameter keys, compile the pattern, store the Route. -/
def RouterC.handle {α : Type} (r : RouterC α) (method path : List Char)
    (handler : α) : RouterC α :=
  let wrapped := applyMws r.middleware handler
  let pieces := parseTemplate path
  let rt : RouteE α := ⟨wrapped, paramNamesOf pieces, pieces⟩
  { r with routes := insertRouteE r.routes (path, method) rt }

/-- Router.Use: append a middleware. -/
def RouterC.use {α : Type} (r : RouterC α) (mw : α → α) : RouterC α :=
  { r with middleware := r.middleware ++ [mw] }

/-- Router.Route: build a subrouter with empty routes and a copy of the
parent's middleware, run the callback on it, then merge each of its routes
into the parent under pathPrefix ++ path. -/
def RouterC.routeSub {α : Type} (r : RouterC α) (pfx : List Char)
    (fn : RouterC α → RouterC α) : RouterC α :=
  let sub2 := fn ⟨[], r.middleware⟩
  sub2.routes.foldl
    (fun acc e => { acc with routes := insertRouteE acc.routes (pfx ++ e.1.1, e.1.2) e.2 })
    r

/-! ## Request resolution -/

/-- The binding loop `for i, key := range ParamKeys { params[key] = matches[i+1] }`
zipped against the capture groups; `none` models the index-out-of-range panic
when a key has no corresponding capture. -/
def zipBind : List (List Char) → List (List Char) → Option (List (List Char × List Char))
  | [], _ => some []
  | _ :: _, [] => none
  | k :: ks, g :: gs => (zipBind ks gs).map (fun t => (k, g) :: t)

/-- Parameter extraction given the FindStringSubmatch result: on a nil result
(`none`) any indexing matches[i+1] panics, so the loop survives only with no
keys; on a match the keys are bound positionally to the groups. -/
def extractParams (keys : List (List Char)) (msub : Option (List (List Char))) :
    Option (List (List Char × List Char)) :=
  match msub with
  | none => if keys = [] then some [] else none
  | some gs => zipBind keys gs

/-- Outcome of ServeHTTP: a handler invoked with its request-context parameter
bindings, the http.NotFound response, or a runtime panic while binding. -/
inductive ServeOutcome (α : Type) where
  | handled (h : α) (ctx : List (List Char × List Char))
  | notFound
  | panicked
  deriving DecidableEq

/-- ServeHTTP: scan the registry entries (in the given order — the Go map
iteration order is unspecified); a route fires when the method is equal and
the anchored pattern matches the path or the template with a trailing `*`
trimmed is a literal prefix of the path; the first firing route binds its
parameters and its handler is invoked; otherwise 404. -/
def serveList {α : Type} :
    List ((List Char × List Char) × RouteE α) → List Char → List Char → ServeOutcome α
  | [], _, _ => ServeOutcome.notFound
  | e :: rest, reqM, reqP =>
    if reqM = e.1.2 ∧ ((matchPieces e.2.pieces reqP).isSome = true ∨
        goHasPrefixL reqP (goTrimSuffixL e.1.1 ['*']) = true) then
      match extractParams e.2.paramKeys (matchPieces e.2.pieces reqP) with
      | some bs => ServeOutcome.handled e.2.handler bs
      | none => ServeOutcome.panicked
    else serveList rest reqM reqP

/-- Context lookup for the parameter bindings: the Go map collapses duplicate
keys with the later loop iteration winning, then each entry is stored with
context.WithValue; the net effect is that the last binding of a key wins. -/
def bindLookup : List (List Char × List Char) → List Char → Option (List Char)
  | [], _ => none
  | e :: rest, key =>
    match bindLookup rest key with
    | some v => some v
    | none => if key = e.1 then some e.2 else none

/-- URLParam: the context value of the key, or the empty string. -/
def urlParam (ctx : List (List Char × List Char)) (key : List Char) : List Char :=
  (bindLookup ctx key).getD []

/-! ## CORS middleware (src/middleware/cors.go) -/

/-- wildcardOrigin: prefix/suffix pair compiled from a single-wildcard
origin pattern.  The source field names prefix/suffix are shortened here. -/
structure WildcardO where
  pre : List Char
  suf : List Char
  deriving DecidableEq

/-- newWildcardOrigin: split the pattern on `*`; exactly two parts give the
prefix/suffix pair, any other count is treated as exact match (prefix is the
whole literal pattern, empty suffix). -/
def newWildcardOrigin (pattern : List Char) : WildcardO :=
  match splitChar '*' pattern with
  | [a, b] => ⟨a, b⟩
  | _ => ⟨pattern, []⟩

/-- wildcardOrigin.match: an empty suffix means exact comparison against the
prefix; otherwise prefix and suffix must both match. -/
def wMatch (w : WildcardO) (origin : List Char) : Bool :=
  if w.suf = [] then decide (origin = w.pre)
  else goHasPrefixL origin w.pre && goHasSuffixL origin w.suf

/-- isOriginAllowed: wildcard-all short-circuits; an empty origin is rejected;
then exact membership (slices.Contains), then the compiled wildcard patterns. -/
def isOriginAllowed (origin : List Char) (allowedOrigins : List (List Char))
    (wilds : List WildcardO) (allowAll : Bool) : Bool :=
  if allowAll then true
  else if origin = [] then false
  else if allowedOrigins.any (fun o => decide (o = origin)) then true
  else wilds.any (fun w => wMatch w origin)

/-- CORSConfig.  MaxAge is an int; Debug drives only the X-CORS-Debug header. -/
structure CorsCfg where
  allowedOrigins : List (List Char)
  allowedMethods : List (List Char)
  allowedHeaders : List (List Char)
  exposedHeaders : List (List Char)
  maxAge : Int
  allowCredentials : Bool
  optionsPassthrough : Bool
  debug : Bool

/-- The defaulting at the top of CORS(): empty AllowedOrigins becomes ["*"],
empty AllowedMethods becomes [GET, POST, HEAD]; AllowedHeaders is left alone. -/
def corsDefaults (cfg : CorsCfg) : CorsCfg :=
  let c1 := if cfg.allowedOrigins = [] then { cfg with allowedOrigins := [['*']] } else cfg
  if c1.allowedMethods = [] then
    { c1 with allowedMethods := [lstr "GET", lstr "POST", lstr "HEAD"] }
  else c1

/-- The pre-compilation loop over AllowedOrigins: a literal "*" sets
allowAllOrigins and breaks; any other pattern containing `*` is compiled, in
order, into the wildcard list. -/
def collectWildcards : List (List Char) → List WildcardO × Bool
  | [] => ([], false)
  | o :: rest =>
    if o = ['*'] then ([], true)
    else
      let r := collectWildcards rest
      if o.contains '*' then (newWildcardOrigin o :: r.1, r.2) else r

/-- filterAllowedHeaders: split the requested value on commas, lower-case and
trim each name, keep those present (case-insensitively: the Go code builds a
lower-cased membership map) in the allow-list, join with ", ". -/
def filterAllowedHeaders (requested : List Char) (allowed : List (List Char)) : List Char :=
  if requested = [] then []
  else
    let reqHs := (splitChar ',' requested).map (fun h => trimSpaceL (toLowerL h))
    let kept := reqHs.filter (fun h => (allowed.map toLowerL).any (fun a => decide (a = h)))
    joinSep (lstr ", ") kept

/-- Response headers: a flat list of (name, value) entries.  Header.Set
replaces every entry of the key, Header.Add appends, Header.Get returns the
first value of the key or the empty string. -/
abbrev Headers := List (List Char × List Char)

/-- Header.Set. -/
def hSet (hs : Headers) (k v : List Char) : Headers :=
  (List.filter (fun e => decide (e.1 ≠ k)) hs) ++ [(k, v)]

/-- Header.Add. -/
def hAdd (hs : Headers) (k v : List Char) : Headers := hs ++ [(k, v)]

/-- Header.Get: first value recorded for the key, or the empty string. -/
def hGet : Headers → List Char → List Char
  | [], _ => []
  | e :: rest, k => if e.1 = k then e.2 else hGet rest k

/-- The request data the CORS handler inspects: the method, the Origin header
value and the Access-Control-Request-Headers header value (absent = ""). -/
structure CorsReq where
  method : List Char
  origin : List Char
  acrh : List Char

/-- Outcome of the CORS middleware for one request: 403 without invoking the
inner handler, 204 ending a preflight, or control passed to the inner handler;
each carries the response headers written by the middleware. -/
inductive CorsOutcome where
  | forbidden (hs : Headers)
  | noContent (hs : Headers)
  | toInner (hs : Headers)

/-- The headers written by the middleware, whatever the outcome. -/
def CorsOutcome.headers : CorsOutcome → Headers
  | .forbidden hs => hs
  | .noContent hs => hs
  | .toInner hs => hs

/-- Whether the outcome is the 403 rejection. -/
def CorsOutcome.isForbidden : CorsOutcome → Bool
  | .forbidden _ => true
  | _ => false

/-- Whether the inner handler runs. -/
def CorsOutcome.innerRuns : CorsOutcome → Bool
  | .toInner _ => true
  | _ => false

/-- The wildcard patterns pre-compiled by CORS(config) from the defaulted
allowed-origin list. -/
def corsWilds (cfg : CorsCfg) : List WildcardO :=
  (collectWildcards (corsDefaults cfg).allowedOrigins).1

/-- The allowAllOrigins flag pre-computed by CORS(config). -/
def corsAllowAll (cfg : CorsCfg) : Bool :=
  (collectWildcards (corsDefaults cfg).allowedOrigins).2

/-- The allowAllHeaders flag: slices.Contains(config.AllowedHeaders, "*"). -/
def corsAllowAllHeaders (cfg : CorsCfg) : Bool :=
  (corsDefaults cfg).allowedHeaders.any (fun h => decide (h = ['*']))

/-- The isOriginAllowed call of the per-request handler, over the defaulted
configuration and its pre-compiled wildcard data. -/
def corsOriginAllowed (cfg : CorsCfg) (origin : List Char) : Bool :=
  isOriginAllowed origin (corsDefaults cfg).allowedOrigins (corsWilds cfg) (corsAllowAll cfg)

/-- Lines 105-115 of cors.go: the headers written on the rejection path —
only the optional debug header. -/
def corsRejectHeaders (cfg0 : CorsCfg) (req : CorsReq) : Headers :=
  if (corsDefaults cfg0).debug then
    hSet [] (lstr "X-CORS-Debug") (lstr "Origin not allowed: " ++ req.origin)
  else []

/-- Lines 118-129 of cors.go: the Allow-Origin / Vary / Allow-Credentials
headers written for every allowed request. -/
def corsCommonHeaders (cfg0 : CorsCfg) (req : CorsReq) : Headers :=
  let cfg := corsDefaults cfg0
  let hs1 := if corsAllowAll cfg0 = true ∧ cfg.allowCredentials = false then
      hSet [] (lstr "Access-Control-Allow-Origin") ['*']
    else hAdd (hSet [] (lstr "Access-Control-Allow-Origin") req.origin)
      (lstr "Vary") (lstr "Origin")
  if cfg.allowCredentials then
    hSet hs1 (lstr "Access-Control-Allow-Credentials") (lstr "true")
  else hs1

/-- Lines 133-136 of cors.go: the Allow-Methods header of a preflight. -/
def corsHs3 (cfg0 : CorsCfg) (req : CorsReq) : Headers :=
  let cfg := corsDefaults cfg0
  if cfg.allowedMethods ≠ [] then
    hSet (corsCommonHeaders cfg0 req) (lstr "Access-Control-Allow-Methods")
      (joinSep (lstr ", ") cfg.allowedMethods)
  else corsCommonHeaders cfg0 req

/-- Lines 138-148 of cors.go: the Allow-Headers negotiation of a preflight. -/
def corsHs4 (cfg0 : CorsCfg) (req : CorsReq) : Headers :=
  let cfg := corsDefaults cfg0
  if corsAllowAllHeaders cfg0 = true ∨ req.acrh = [] then
    hSet (corsHs3 cfg0 req) (lstr "Access-Control-Allow-Headers") req.acrh
  else if cfg.allowedHeaders ≠ [] then
    let allowed := filterAllowedHeaders req.acrh cfg.allowedHeaders
    if allowed ≠ [] then hSet (corsHs3 cfg0 req) (lstr "Access-Control-Allow-Headers") allowed
    else corsHs3 cfg0 req
  else corsHs3 cfg0 req

/-- Lines 150-157 of cors.go: Max-Age and the preflight debug header. -/
def corsPreflightHeaders (cfg0 : CorsCfg) (req : CorsReq) : Headers :=
  let cfg := corsDefaults cfg0
  let hs5 := if cfg.maxAge > 0 then
      hSet (corsHs4 cfg0 req) (lstr "Access-Control-Max-Age") (lstr (toString cfg.maxAge))
    else corsHs4 cfg0 req
  if cfg.debug then hSet hs5 (lstr "X-CORS-Debug") (lstr "Preflight response")
  else hs5

/-- Lines 164-169 of cors.go: the Expose-Headers header of an allowed
non-preflight request. -/
def corsActualHeaders (cfg0 : CorsCfg) (req : CorsReq) : Headers :=
  let cfg := corsDefaults cfg0
  if cfg.exposedHeaders ≠ [] then
    hSet (corsCommonHeaders cfg0 req) (lstr "Access-Control-Expose-Headers")
      (joinSep (lstr ", ") cfg.exposedHeaders)
  else corsCommonHeaders cfg0 req

/-- The per-request handler produced by CORS(config), lines 100-172 of
cors.go, over the defaulted configuration and its pre-compiled wildcard
data, with the header-writing stages factored into the defs above. -/
def corsServe (cfg0 : CorsCfg) (req : CorsReq) : CorsOutcome :=
  let cfg := corsDefaults cfg0
  if corsOriginAllowed cfg0 req.origin = false then
    if req.method = lstr "OPTIONS" ∧ cfg.optionsPassthrough = false then
      CorsOutcome.forbidden (corsRejectHeaders cfg0 req)
    else CorsOutcome.toInner (corsRejectHeaders cfg0 req)
  else
    if req.method = lstr "OPTIONS" then
      if cfg.optionsPassthrough = false then
        CorsOutcome.noContent (corsPreflightHeaders cfg0 req)
      else CorsOutcome.toInner (corsPreflightHeaders cfg0 req)
    else CorsOutcome.toInner (corsActualHeaders cfg0 req)

/-- DefaultCORSConfig. -/
def defaultCorsCfg : CorsCfg :=
  { allowedOrigins := [['*']]
  , allowedMethods := [lstr "GET", lstr "POST", lstr "PUT", lstr "PATCH",
      lstr "DELETE", lstr "HEAD", lstr "OPTIONS"]
  , allowedHeaders := [['*']]
  , exposedHeaders := []
  , maxAge := 0
  , allowCredentials := false
  , optionsPassthrough := false
  , debug := false }

/-- Number of occurrences of a character in a string. -/
def countChar (c : Char) : List Char → Nat
  | [] => 0
  | x :: xs => (if x = c then 1 else 0) + countChar c xs

/-! ## Rate limiter (src/middleware/rateLimiter.go) -/

/-- Read of the lastRequestTime map; the key is the raw RemoteAddr string. -/
def lookupTime : List (List Char × Int) → List Char → Option Int
  | [], _ => none
  | e :: rest, ip => if e.1 = ip then some e.2 else lookupTime rest ip

/-- Write lastRequestTime[ip] = now. -/
def insertTime : List (List Char × Int) → List Char → Int → List (List Char × Int)
  | [], ip, now => [(ip, now)]
  | e :: rest, ip, now =>
    if e.1 = ip then (e.1, now) :: rest else e :: insertTime rest ip now

/-- One pass through the RateLimiter critical section: times are int64
nanoseconds, time.Second = 1000000000.  Returns (inner handler runs?, new
map): an entry younger than one second yields the 429 rejection with the map
untouched; otherwise the timestamp is recorded and the inner handler runs. -/
def rateLimit (st : List (List Char × Int)) (ip : List Char) (now : Int) :
    Bool × List (List Char × Int) :=
  match lookupTime st ip with
  | some last =>
    if now - last < 1000000000 then (false, st)
    else (true, insertTime st ip now)
  | none => (true, insertTime st ip now)

/-! ## String splitting lemmas -/

theorem splitChar_sepFree (sep : Char) (l : List Char) (h : ∀ c ∈ l, c ≠ sep) :
    splitChar sep l = [l] := by
  induction l with
  | nil => rfl
  | cons c rest ih =>
    have hc : c ≠ sep := h c (List.mem_cons_self c rest)
    have ih' := ih (fun c' hc' => h c' (List.mem_cons_of_mem c hc'))
    simp [splitChar, hc, ih']

theorem splitChar_append_sep (sep : Char) (a r : List Char) (h : ∀ c ∈ a, c ≠ sep) :
    splitChar sep (a ++ sep :: r) = a :: splitChar sep r := by
  induction a with
  | nil => simp [splitChar]
  | cons c rest ih =>
    have hc : c ≠ sep := h c (List.mem_cons_self c rest)
    have ih' := ih (fun c' hc' => h c' (List.mem_cons_of_mem c hc'))
    simp [splitChar, hc, ih']

theorem splitChar_length (sep : Char) (l : List Char) :
    (splitChar sep l).length = countChar sep l + 1 := by
  induction l with
  | nil => rfl
  | cons c rest ih =>
    by_cases hc : c = sep
    · simp only [splitChar, if_pos hc, countChar, List.length_cons, ih]
      omega
    · rcases hsp : splitChar sep rest with _ | ⟨r0, rs⟩
      · rw [hsp] at ih; simp at ih
      · rw [hsp] at ih
        simp only [splitChar, if_neg hc, hsp, countChar, List.length_cons] at *
        omega

/-- Claim C3 (amended): for a pattern with exactly one `*` whose text after
the `*` is nonempty, the matcher accepts exactly the origins that start with
the prefix and end with the suffix; when the `*` is trailing (empty suffix)
the matcher instead accepts only the literal prefix string; a pattern with
two or more `*` falls back to exact comparison with the literal pattern. -/
theorem claim_C3_amended (before after origin pat2 : List Char)
    (hb : ∀ c ∈ before, c ≠ '*') (ha : ∀ c ∈ after, c ≠ '*')
    (h2 : 2 ≤ countChar '*' pat2) :
    (after ≠ [] →
      (wMatch (newWildcardOrigin (before ++ '*' :: after)) origin = true ↔
        (goHasPrefixL origin before = true ∧ goHasSuffixL origin after = true)))
    ∧ (after = [] →
      (wMatch (newWildcardOrigin (before ++ '*' :: after)) origin = true ↔ origin = before))
    ∧ (wMatch (newWildcardOrigin pat2) origin = true ↔ origin = pat2) := by
  have hsplit : splitChar '*' (before ++ '*' :: after) = [before, after] := by
    rw [splitChar_append_sep '*' before after hb, splitChar_sepFree '*' after ha]
  have hone : newWildcardOrigin (before ++ '*' :: after) = ⟨before, after⟩ := by
    simp [newWildcardOrigin, hsplit]
  have hlen : (splitChar '*' pat2).length = countChar '*' pat2 + 1 := splitChar_length '*' pat2
  have h3 : 3 ≤ (splitChar '*' pat2).length := by omega
  have hfall : newWildcardOrigin pat2 = ⟨pat2, []⟩ := by
    rcases hsp : splitChar '*' pat2 with _ | ⟨a, tl⟩
    · simp [newWildcardOrigin, hsp]
    · rcases tl with _ | ⟨b, tl2⟩
      · simp [newWildcardOrigin, hsp]
      · rcases tl2 with _ | ⟨c, tl3⟩
        · rw [hsp] at h3; simp at h3
        · simp [newWildcardOrigin, hsp]
  refine ⟨fun hne => ?_, fun heq => ?_, ?_⟩
  · rw [hone]
    simp [wMatch, hne]
  · subst heq
    rw [hone]
    simp [wMatch]
  · rw [hfall]
    simp [wMatch]

/-- Claim C3 counterexample: the single-wildcard pattern "https://app.*"
(prefix "https://app.", suffix "") and the origin "https://app.x": the origin
starts with the prefix and ends with the (empty) suffix, yet the matcher
rejects it, because an empty suffix degrades to exact comparison. -/
theorem claim_C3_counterexample :
    countChar '*' (lstr "https://app.*") = 1
    ∧ goHasPrefixL (lstr "https://app.x") (lstr "https://app.") = true
    ∧ goHasSuffixL (lstr "https://app.x") [] = true
    ∧ wMatch (newWildcardOrigin (lstr "https://app.*")) (lstr "https://app.x") = false := by
  decide

theorem claim_C3_witness :
    wMatch (newWildcardOrigin (lstr "https://" ++ '*' :: lstr ".example.com"))
      (lstr "https://a.example.com") = true
    ∧ wMatch (newWildcardOrigin (lstr "a*b*c")) (lstr "a*b*c") = true :=
  ⟨((claim_C3_amended (lstr "https://") (lstr ".example.com")
      (lstr "https://a.example.com") (lstr "a*b*c")
      (by decide) (by decide) (by decide)).1 (by decide)).mpr (by decide),
   ((claim_C3_amended (lstr "https://") (lstr ".example.com")
      (lstr "a*b*c") (lstr "a*b*c")
      (by decide) (by decide) (by decide)).2.2).mpr rfl⟩

/-! ## Registry lemmas -/

theorem lookupRouteE_insertRouteE_self {α : Type}
    (rs : List ((List Char × List Char) × RouteE α)) (k : List Char × List Char)
    (rt : RouteE α) : lookupRouteE (insertRouteE rs k rt) k = some rt := by
  induction rs with
  | nil => simp [insertRouteE, lookupRouteE]
  | cons e rest ih =>
    by_cases h : e.1 = k
    · simpa [insertRouteE, List.filter_cons, h] using ih
    · simpa [insertRouteE, List.filter_cons, h, lookupRouteE] using ih

theorem lookupRouteE_insertRouteE_ne {α : Type}
    (rs : List ((List Char × List Char) × RouteE α)) (k k' : List Char × List Char)
    (rt : RouteE α) (hne : k' ≠ k) :
    lookupRouteE (insertRouteE rs k rt) k' = lookupRouteE rs k' := by
  induction rs with
  | nil => simp [insertRouteE, lookupRouteE, Ne.symm hne]
  | cons e rest ih =>
    by_cases h : e.1 = k
    · simpa [insertRouteE, List.filter_cons, h, lookupRouteE, Ne.symm hne] using ih
    · by_cases h3 : e.1 = k'
      · simp [insertRouteE, List.filter_cons, h, lookupRouteE, h3, hne]
      · simpa [insertRouteE, List.filter_cons, h, lookupRouteE, h3] using ih

theorem applyMws_append {α : Type} (l : List (α → α)) (mw : α → α) (h : α) :
    applyMws (l ++ [mw]) h = applyMws l (mw h) := by
  induction l with
  | nil => rfl
  | cons m0 rest ih => simp [applyMws, ih]

/-- Claim C2: registering a route wraps its handler with every middleware
currently in the router's list, middleware[0] outermost (the last-to-first
application loop), and a middleware appended with Use after a registration
does not wrap the already registered route, only routes registered later. -/
theorem claim_C2 (α : Type) (r : RouterC α) (m p : List Char) (h : α)
    (mw : α → α) (m2 p2 : List Char) (h2 : α)
    (hne : (p2, m2) ≠ (p, m)) :
    (lookupRouteE ((r.handle m p h).routes) (p, m)).map RouteE.handler
        = some (applyMws r.middleware h)
    ∧ (lookupRouteE ((((r.handle m p h).use mw).handle m2 p2 h2).routes) (p, m)).map
          RouteE.handler
        = some (applyMws r.middleware h)
    ∧ (lookupRouteE ((((r.handle m p h).use mw).handle m2 p2 h2).routes) (p2, m2)).map
          RouteE.handler
        = some (applyMws (r.middleware ++ [mw]) h2)
    ∧ applyMws (r.middleware ++ [mw]) h2 = applyMws r.middleware (mw h2)
    ∧ ∀ (m0 : α → α) (rest : List (α → α)) (hh : α),
        applyMws (m0 :: rest) hh = m0 (applyMws rest hh) := by
  refine ⟨?_, ?_, ?_, applyMws_append .., fun m0 rest hh => rfl⟩
  · simp only [RouterC.handle]
    rw [lookupRouteE_insertRouteE_self]
    rfl
  · simp only [RouterC.handle, RouterC.use]
    rw [lookupRouteE_insertRouteE_ne _ _ _ _ (Ne.symm hne), lookupRouteE_insertRouteE_self]
    rfl
  · simp only [RouterC.handle, RouterC.use]
    rw [lookupRouteE_insertRouteE_self]
    rfl

theorem claim_C2_witness :
    ((lstr "/b", lstr "GET") ≠ (lstr "/a", lstr "GET"))
    ∧ (lookupRouteE ((RouterC.handle ⟨[], []⟩ (lstr "GET") (lstr "/a") (3 : Nat)).routes)
        (lstr "/a", lstr "GET")).map RouteE.handler = some 3 :=
  ⟨by decide,
   (claim_C2 Nat ⟨[], []⟩ (lstr "GET") (lstr "/a") 3 Nat.succ (lstr "GET") (lstr "/b") 5
     (by decide)).1⟩

/-- Claim C9: a sub-router copies the parent's middleware list at creation
time: middleware added to the parent before the Route call wraps the routes
declared inside the sub-router (innermost, as the last list entry), while
middleware added to the parent afterwards leaves those stored handlers
untouched. -/
theorem claim_C9 (α : Type) (r : RouterC α) (pfx m p : List Char) (h : α)
    (mwA mwB : α → α) :
    (lookupRouteE (((r.use mwA).routeSub pfx (fun s => s.handle m p h)).routes)
        (pfx ++ p, m)).map RouteE.handler
      = some (applyMws (r.middleware ++ [mwA]) h)
    ∧ applyMws (r.middleware ++ [mwA]) h = applyMws r.middleware (mwA h)
    ∧ (lookupRouteE (((r.routeSub pfx (fun s => s.handle m p h)).use mwB).routes)
        (pfx ++ p, m)).map RouteE.handler
      = some (applyMws r.middleware h) := by
  have hnil : ∀ (k : List Char × List Char) (rt : RouteE α),
      insertRouteE [] k rt = [(k, rt)] := fun _ _ => rfl
  refine ⟨?_, applyMws_append .., ?_⟩
  · simp only [RouterC.routeSub, RouterC.handle, RouterC.use, hnil,
      List.foldl_cons, List.foldl_nil]
    rw [lookupRouteE_insertRouteE_self]
    rfl
  · simp only [RouterC.routeSub, RouterC.handle, RouterC.use, hnil,
      List.foldl_cons, List.foldl_nil]
    rw [lookupRouteE_insertRouteE_self]
    rfl

/-- Claim C6: with the route template "/users/{id}/" registered, the request
path "/users/{id}//" passes the trailing-* prefix test while the anchored
compiled pattern does not match, so ServeHTTP indexes the nil submatch slice
while binding the one parameter and panics instead of responding. -/
theorem claim_C6 :
    (matchPieces (parseTemplate (lstr "/users/{id}/")) (lstr "/users/{id}//")).isSome = false
    ∧ goHasPrefixL (lstr "/users/{id}//") (goTrimSuffixL (lstr "/users/{id}/") ['*']) = true
    ∧ paramNamesOf (parseTemplate (lstr "/users/{id}/")) ≠ []
    ∧ serveList (RouterC.handle (α := Nat) ⟨[], []⟩ (lstr "GET") (lstr "/users/{id}/") 0).routes
        (lstr "GET") (lstr "/users/{id}//") = ServeOutcome.panicked := by
  decide

/-- Claim C7: when no registry entry fires on the request — neither by
anchored pattern match nor by trailing-* prefix match with equal method —
ServeHTTP responds NotFound and invokes no handler, whatever the registry
contents and iteration order. -/
theorem claim_C7 (α : Type) (entries : List ((List Char × List Char) × RouteE α))
    (reqM reqP : List Char)
    (hnone : ∀ e ∈ entries,
      ¬(reqM = e.1.2 ∧ ((matchPieces e.2.pieces reqP).isSome = true
        ∨ goHasPrefixL reqP (goTrimSuffixL e.1.1 ['*']) = true))) :
    serveList entries reqM reqP = ServeOutcome.notFound := by
  induction entries with
  | nil => rfl
  | cons e rest ih =>
    rw [serveList, if_neg (hnone e (List.mem_cons_self e rest))]
    exact ih (fun e' h' => hnone e' (List.mem_cons_of_mem e h'))

theorem claim_C7_witness :
    (∀ e ∈ (RouterC.handle (α := Nat) ⟨[], []⟩ (lstr "GET") (lstr "/a") 0).routes,
      ¬(lstr "POST" = e.1.2 ∧ ((matchPieces e.2.pieces (lstr "/b")).isSome = true
        ∨ goHasPrefixL (lstr "/b") (goTrimSuffixL e.1.1 ['*']) = true)))
    ∧ serveList (RouterC.handle (α := Nat) ⟨[], []⟩ (lstr "GET") (lstr "/a") 0).routes
        (lstr "POST") (lstr "/b") = ServeOutcome.notFound :=
  ⟨by decide,
   claim_C7 Nat (RouterC.handle ⟨[], []⟩ (lstr "GET") (lstr "/a") 0).routes
     (lstr "POST") (lstr "/b") (by decide)⟩

/-! ## Rate limiter -/

theorem lookupTime_insertTime_self (st : List (List Char × Int)) (ip : List Char)
    (now : Int) : lookupTime (insertTime st ip now) ip = some now := by
  induction st with
  | nil => simp [insertTime, lookupTime]
  | cons e rest ih =>
    by_cases h : e.1 = ip
    · simp [insertTime, h, lookupTime]
    · simpa [insertTime, h, lookupTime] using ih

/-- Claim C5: a stored timestamp younger than one second (1e9 ns) for the raw
remote-address identity yields the 429 rejection with the map unchanged;
with no entry, or an entry at least one second old, the timestamp is set to
now and the inner handler runs. -/
theorem claim_C5 (st : List (List Char × Int)) (ip : List Char) (now last : Int) :
    (lookupTime st ip = some last → now - last < 1000000000 →
      rateLimit st ip now = (false, st))
    ∧ (lookupTime st ip = none →
      rateLimit st ip now = (true, insertTime st ip now)
      ∧ lookupTime (rateLimit st ip now).2 ip = some now)
    ∧ (lookupTime st ip = some last → 1000000000 ≤ now - last →
      rateLimit st ip now = (true, insertTime st ip now)
      ∧ lookupTime (rateLimit st ip now).2 ip = some now) := by
  refine ⟨fun hl hlt => ?_, fun hl => ?_, fun hl hge => ?_⟩
  · simp [rateLimit, hl, hlt]
  · simp [rateLimit, hl, lookupTime_insertTime_self]
  · simp [rateLimit, hl, not_lt.mpr hge, lookupTime_insertTime_self]

/-! ## CORS header lemmas -/

theorem corsDefaults_optionsPassthrough (cfg : CorsCfg) :
    (corsDefaults cfg).optionsPassthrough = cfg.optionsPassthrough := by
  simp only [corsDefaults]
  split_ifs <;> rfl

theorem corsDefaults_allowedHeaders (cfg : CorsCfg) :
    (corsDefaults cfg).allowedHeaders = cfg.allowedHeaders := by
  simp only [corsDefaults]
  split_ifs <;> rfl

theorem hGet_hSet_self (hs : Headers) (k v : List Char) : hGet (hSet hs k v) k = v := by
  induction hs with
  | nil => simp [hSet, hGet]
  | cons e rest ih =>
    by_cases h : e.1 = k
    · simpa [hSet, List.filter_cons, h] using ih
    · simpa [hSet, List.filter_cons, h, hGet] using ih

theorem hGet_hSet_ne (hs : Headers) (k v k' : List Char) (h : k' ≠ k) :
    hGet (hSet hs k v) k' = hGet hs k' := by
  induction hs with
  | nil => simp [hSet, hGet, Ne.symm h]
  | cons e rest ih =>
    by_cases he : e.1 = k
    · simpa [hSet, List.filter_cons, he, hGet, Ne.symm h] using ih
    · by_cases he2 : e.1 = k'
      · simp [hSet, List.filter_cons, he, hGet, he2, h]
      · simpa [hSet, List.filter_cons, he, hGet, he2] using ih

theorem hGet_hAdd_ne (hs : Headers) (k v k' : List Char) (h : k' ≠ k) :
    hGet (hAdd hs k v) k' = hGet hs k' := by
  induction hs with
  | nil => simp [hAdd, hGet, Ne.symm h]
  | cons e rest ih =>
    by_cases he : e.1 = k'
    · simp [hAdd, hGet, he]
    · simpa [hAdd, hGet, he] using ih

/-- Claim C4 (amended): when the origin matcher rejects the request's Origin
value — an absent (empty) origin is rejected exactly when wildcard-all is not
in effect — a preflight (OPTIONS) request with passthrough disabled gets the
403 response and the inner handler never runs; any other request goes to the
inner handler with no Access-Control-* and no Vary header added. -/
theorem claim_C4_amended (cfg : CorsCfg) (req : CorsReq)
    (hna : corsOriginAllowed cfg req.origin = false) :
    (req.method = lstr "OPTIONS" ∧ cfg.optionsPassthrough = false →
      (corsServe cfg req).isForbidden = true ∧ (corsServe cfg req).innerRuns = false)
    ∧ (¬(req.method = lstr "OPTIONS" ∧ cfg.optionsPassthrough = false) →
      (corsServe cfg req).innerRuns = true
      ∧ ∀ e ∈ (corsServe cfg req).headers,
          goHasPrefixL e.1 (lstr "Access-Control-") = false ∧ e.1 ≠ lstr "Vary") := by
  constructor
  · rintro ⟨hm, hp⟩
    have hp' : (corsDefaults cfg).optionsPassthrough = false :=
      (corsDefaults_optionsPassthrough cfg).trans hp
    simp only [corsServe, hna]
    rw [if_pos trivial, if_pos ⟨hm, hp'⟩]
    exact ⟨rfl, rfl⟩
  · intro hnot
    have hnot' : ¬(req.method = lstr "OPTIONS" ∧ (corsDefaults cfg).optionsPassthrough = false) := by
      rw [corsDefaults_optionsPassthrough]; exact hnot
    simp only [corsServe, hna]
    rw [if_pos trivial, if_neg hnot']
    refine ⟨rfl, ?_⟩
    intro e he
    simp only [CorsOutcome.headers] at he
    by_cases hd : (corsDefaults cfg).debug = true
    · simp only [corsRejectHeaders, hd, if_true, hSet, List.filter_nil, List.nil_append,
        List.mem_singleton] at he
      subst he
      constructor
      · show goHasPrefixL (lstr "X-CORS-Debug") (lstr "Access-Control-") = false
        decide
      · show lstr "X-CORS-Debug" ≠ lstr "Vary"
        decide
    · simp [corsRejectHeaders, hd] at he

/-- Claim C4 counterexample: under the default configuration (wildcard-all
origins, passthrough disabled) an OPTIONS request with an absent Origin
header is treated as allowed, so the middleware answers the preflight (204)
rather than the 403 the claim demands for an absent origin. -/
theorem claim_C4_counterexample :
    (CorsReq.mk (lstr "OPTIONS") [] []).origin = []
    ∧ defaultCorsCfg.optionsPassthrough = false
    ∧ (corsServe defaultCorsCfg (CorsReq.mk (lstr "OPTIONS") [] [])).isForbidden = false
    ∧ (corsServe defaultCorsCfg (CorsReq.mk (lstr "OPTIONS") [] [])).innerRuns = false := by
  decide

theorem claim_C4_witness :
    corsOriginAllowed
      (CorsCfg.mk [lstr "https://ok.com"] [] [] [] 0 false false false)
      (lstr "https://evil.com") = false
    ∧ (corsServe (CorsCfg.mk [lstr "https://ok.com"] [] [] [] 0 false false false)
        (CorsReq.mk (lstr "OPTIONS") (lstr "https://evil.com") [])).isForbidden = true :=
  ⟨by decide,
   ((claim_C4_amended (CorsCfg.mk [lstr "https://ok.com"] [] [] [] 0 false false false)
      (CorsReq.mk (lstr "OPTIONS") (lstr "https://evil.com") [])
      (by decide)).1 ⟨rfl, rfl⟩).1⟩

theorem hGet_corsCommonHeaders_other (cfg0 : CorsCfg) (req : CorsReq) (k : List Char)
    (h1 : k ≠ lstr "Access-Control-Allow-Origin") (h2 : k ≠ lstr "Vary")
    (h3 : k ≠ lstr "Access-Control-Allow-Credentials") :
    hGet (corsCommonHeaders cfg0 req) k = [] := by
  by_cases haa : corsAllowAll cfg0 = true <;>
  by_cases hc : (corsDefaults cfg0).allowCredentials = true <;>
  simp [corsCommonHeaders, haa, hc, hGet_hSet_ne, hGet_hAdd_ne, h1, h2, h3,
    Ne.symm h1, Ne.symm h2, Ne.symm h3, hGet]

theorem hGet_corsHs3_ACAH (cfg0 : CorsCfg) (req : CorsReq) :
    hGet (corsHs3 cfg0 req) (lstr "Access-Control-Allow-Headers") = [] := by
  have hcommon := hGet_corsCommonHeaders_other cfg0 req
    (lstr "Access-Control-Allow-Headers") (by decide) (by decide) (by decide)
  by_cases hm : (corsDefaults cfg0).allowedMethods ≠ [] <;>
    simp +decide [corsHs3, hm, hGet_hSet_ne, hcommon]

theorem filterAllowedHeaders_nil (x : List Char) : filterAllowedHeaders x [] = [] := by
  by_cases hx : x = [] <;>
    simp [filterAllowedHeaders, hx, joinSep, List.filter_eq_nil_iff]

theorem hGet_corsHs4_ACAH (cfg0 : CorsCfg) (req : CorsReq) :
    hGet (corsHs4 cfg0 req) (lstr "Access-Control-Allow-Headers")
      = if corsAllowAllHeaders cfg0 = true ∨ req.acrh = [] then req.acrh
        else filterAllowedHeaders req.acrh (corsDefaults cfg0).allowedHeaders := by
  by_cases hecho : corsAllowAllHeaders cfg0 = true ∨ req.acrh = []
  · simp [corsHs4, hecho, hGet_hSet_self]
  · rw [if_neg hecho]
    by_cases hne : (corsDefaults cfg0).allowedHeaders ≠ []
    · by_cases hf : filterAllowedHeaders req.acrh (corsDefaults cfg0).allowedHeaders ≠ []
      · simp [corsHs4, hecho, hne, hf, hGet_hSet_self]
      · rw [not_not] at hf
        simp [corsHs4, hecho, hne, hf, hGet_corsHs3_ACAH]
    · rw [not_not] at hne
      simp [corsHs4, hecho, hne, hGet_corsHs3_ACAH, filterAllowedHeaders_nil]

theorem hGet_corsPreflightHeaders_ACAH (cfg0 : CorsCfg) (req : CorsReq) :
    hGet (corsPreflightHeaders cfg0 req) (lstr "Access-Control-Allow-Headers")
      = hGet (corsHs4 cfg0 req) (lstr "Access-Control-Allow-Headers") := by
  by_cases hma : (corsDefaults cfg0).maxAge > 0 <;>
  by_cases hd : (corsDefaults cfg0).debug = true <;>
  simp +decide [corsPreflightHeaders, hma, hd, hGet_hSet_ne]

theorem corsServe_preflight_headers (cfg : CorsCfg) (req : CorsReq)
    (hal : corsOriginAllowed cfg req.origin = true)
    (hopt : req.method = lstr "OPTIONS") :
    (corsServe cfg req).headers = corsPreflightHeaders cfg req := by
  simp only [corsServe, hal]
  rw [if_neg (by decide), if_pos hopt]
  by_cases hpt : (corsDefaults cfg).optionsPassthrough = false <;>
    simp [hpt, CorsOutcome.headers]

/-- Claim C8: for an allowed preflight, when the allow-list is not
wildcard-all and the requested-headers value is nonempty, the
Access-Control-Allow-Headers response value is the case-folded, comma-joined
sublist of the requested header names (split on commas, trimmed) that occur
case-insensitively in the allow-list, in requested order; when the allow-list
is wildcard-all or the requested value is empty, the requested value is
echoed verbatim. -/
theorem claim_C8 (cfg : CorsCfg) (req : CorsReq)
    (hal : corsOriginAllowed cfg req.origin = true)
    (hopt : req.method = lstr "OPTIONS") :
    (corsAllowAllHeaders cfg = false → req.acrh ≠ [] →
      hGet (corsServe cfg req).headers (lstr "Access-Control-Allow-Headers")
        = joinSep (lstr ", ")
            (((splitChar ',' req.acrh).map (fun h => trimSpaceL (toLowerL h))).filter
              (fun h => (cfg.allowedHeaders.map toLowerL).any (fun a => decide (a = h)))))
    ∧ (corsAllowAllHeaders cfg = true ∨ req.acrh = [] →
      hGet (corsServe cfg req).headers (lstr "Access-Control-Allow-Headers") = req.acrh) := by
  constructor
  · intro hAAH hacrh
    rw [corsServe_preflight_headers cfg req hal hopt, hGet_corsPreflightHeaders_ACAH,
      hGet_corsHs4_ACAH, if_neg (by simp [hAAH, hacrh]), corsDefaults_allowedHeaders]
    simp [filterAllowedHeaders, hacrh]
  · intro hor
    rw [corsServe_preflight_headers cfg req hal hopt, hGet_corsPreflightHeaders_ACAH,
      hGet_corsHs4_ACAH, if_pos hor]

theorem claim_C8_witness :
    corsAllowAllHeaders (CorsCfg.mk [['*']] [] [lstr "x-foo"] [] 0 false false false) = false
    ∧ hGet (corsServe (CorsCfg.mk [['*']] [] [lstr "x-foo"] [] 0 false false false)
        (CorsReq.mk (lstr "OPTIONS") (lstr "https://a.com") (lstr "X-Foo, X-Bar"))).headers
        (lstr "Access-Control-Allow-Headers") = lstr "x-foo" :=
  ⟨by decide,
   ((claim_C8 (CorsCfg.mk [['*']] [] [lstr "x-foo"] [] 0 false false false)
      (CorsReq.mk (lstr "OPTIONS") (lstr "https://a.com") (lstr "X-Foo, X-Bar"))
      (by decide) rfl).1 (by decide) (by decide)).trans (by decide)⟩

theorem claim_C5_witness :
    (lookupTime [(lstr "1.2.3.4:5000", (0 : Int))] (lstr "1.2.3.4:5000") = some 0)
    ∧ rateLimit [(lstr "1.2.3.4:5000", 0)] (lstr "1.2.3.4:5000") 900000000
        = (false, [(lstr "1.2.3.4:5000", 0)])
    ∧ rateLimit [(lstr "1.2.3.4:5000", 0)] (lstr "1.2.3.4:5000") 1100000000
        = (true, [(lstr "1.2.3.4:5000", 1100000000)]) :=
  ⟨by decide,
   (claim_C5 [(lstr "1.2.3.4:5000", 0)] (lstr "1.2.3.4:5000") 900000000 0).1
     (by decide) (by decide),
   ((claim_C5 [(lstr "1.2.3.4:5000", 0)] (lstr "1.2.3.4:5000") 1100000000 0).2.2
     (by decide) (by decide)).1⟩

/-! ## Parameter extraction round trip (claim C1) -/

theorem takeWhile_append_of_all (p : Char → Bool) (v r : List Char)
    (h : ∀ c ∈ v, p c = true) :
    (v ++ r).takeWhile p = v ++ r.takeWhile p := by
  induction v with
  | nil => rfl
  | cons c cs ih =>
    have hc := h c (List.mem_cons_self c cs)
    simp [List.takeWhile_cons, hc, ih (fun c' hc' => h c' (List.mem_cons_of_mem c hc'))]

theorem renderPieces_segStart (ps : List Piece) (vs : List (List Char))
    (h : segStart ps = true) :
    renderPieces ps vs = [] ∨ ∃ t, renderPieces ps vs = '/' :: t := by
  cases ps with
  | nil =>
    left
    cases vs <;> rfl
  | cons p ps' =>
    cases p with
    | lit c =>
      right
      have hc : c = '/' := by simpa [segStart] using h
      subst hc
      exact ⟨renderPieces ps' vs, rfl⟩
    | param n => simp [segStart] at h

theorem matchP_render (ps : List Piece) (vals : List (List Char)) (fuel : Nat)
    (hdel : delimitedP ps = true)
    (hlen : vals.length = (paramNamesOf ps).length)
    (hvals : ∀ v ∈ vals, v ≠ [] ∧ '/' ∉ v)
    (hfuel : ps.length < fuel) :
    matchP fuel ps (renderPieces ps vals) = some vals := by
  induction ps generalizing vals fuel with
  | nil =>
    have hv : vals = [] := List.eq_nil_of_length_eq_zero (by simpa [paramNamesOf] using hlen)
    subst hv
    cases fuel with
    | zero => omega
    | succ f => simp [matchP, renderPieces]
  | cons p ps ih =>
    cases fuel with
    | zero => omega
    | succ f =>
      have hfuel' : ps.length < f := by
        simpa using Nat.lt_of_succ_lt_succ hfuel
      cases p with
      | lit c =>
        have hdel' : delimitedP ps = true := by simpa [delimitedP] using hdel
        have hlen' : vals.length = (paramNamesOf ps).length := by
          simpa [paramNamesOf] using hlen
        simp [renderPieces, matchP, ih vals f hdel' hlen' hvals hfuel']
      | param name =>
        cases vals with
        | nil => simp [paramNamesOf] at hlen
        | cons v vs =>
          have hv := hvals v (List.mem_cons_self v vs)
          have hvs : ∀ v' ∈ vs, v' ≠ [] ∧ '/' ∉ v' :=
            fun v' h' => hvals v' (List.mem_cons_of_mem v h')
          have hseg : segStart ps = true := by
            have := hdel
            simp only [delimitedP, Bool.and_eq_true] at this
            exact this.1
          have hdel' : delimitedP ps = true := by
            have := hdel
            simp only [delimitedP, Bool.and_eq_true] at this
            exact this.2
          have hlen' : vs.length = (paramNamesOf ps).length := by
            simpa [paramNamesOf] using hlen
          rcases v with _ | ⟨c0, v'⟩
          · exact absurd rfl hv.1
          · have hp : ∀ c ∈ c0 :: v', (fun c => !(c == '/')) c = true := by
              intro c hc
              simp only [Bool.not_eq_true']
              rw [beq_eq_false_iff_ne]
              intro heq
              exact hv.2 (heq ▸ hc)
            have htake : (((c0 :: v') ++ renderPieces ps vs).takeWhile
                (fun c => !(c == '/'))) = c0 :: v' := by
              rw [takeWhile_append_of_all _ _ _ hp]
              rcases renderPieces_segStart ps vs hseg with h0 | ⟨t, ht⟩
              · simp [h0]
              · simp [ht, List.takeWhile_cons]
            have hdrop : ((c0 :: v') ++ renderPieces ps vs).drop (v'.length + 1)
                = renderPieces ps vs := List.drop_left (c0 :: v') (renderPieces ps vs)
            have htakeL : ((c0 :: v') ++ renderPieces ps vs).take (v'.length + 1)
                = c0 :: v' := List.take_left (c0 :: v') (renderPieces ps vs)
            simp only [renderPieces, matchP, htake, List.length_cons, downFrom1,
              List.findSome?_cons]
            rw [hdrop, ih vs f hdel' hlen' hvs hfuel', htakeL]
            rfl

theorem zipBind_eq_zip (keys vals : List (List Char)) (h : keys.length = vals.length) :
    zipBind keys vals = some (keys.zip vals) := by
  induction keys generalizing vals with
  | nil => simp [zipBind]
  | cons k ks ih =>
    cases vals with
    | nil => simp at h
    | cons v vs =>
      simp [zipBind, ih vs (by simpa using h), List.zip_cons_cons]

theorem bindLookup_none_of_not_mem (prs : List (List Char × List Char))
    (key : List Char) (h : ∀ e ∈ prs, e.1 ≠ key) : bindLookup prs key = none := by
  induction prs with
  | nil => rfl
  | cons e rest ih =>
    have he := h e (List.mem_cons_self e rest)
    simp [bindLookup, ih (fun e' h' => h e' (List.mem_cons_of_mem e h')), Ne.symm he]

theorem bindLookup_zip (keys vals : List (List Char)) (i : Nat)
    (hik : i < keys.length) (hiv : i < vals.length) (hnd : keys.Nodup) :
    bindLookup (keys.zip vals) keys[i] = some vals[i] := by
  induction keys generalizing vals i with
  | nil => simp at hik
  | cons k ks ih =>
    cases vals with
    | nil => simp at hiv
    | cons v vs =>
      rw [List.nodup_cons] at hnd
      cases i with
      | zero =>
        have hnone : bindLookup (ks.zip vs) k = none := by
          refine bindLookup_none_of_not_mem _ _ (fun e he => ?_)
          intro heq
          exact hnd.1 (heq ▸ (List.of_mem_zip he).1)
        simp only [List.zip_cons_cons, List.getElem_cons_zero]
        rw [bindLookup, hnone]
        simp
      | succ j =>
        have hik' : j < ks.length := Nat.lt_of_succ_lt_succ hik
        have hiv' : j < vs.length := Nat.lt_of_succ_lt_succ hiv
        simp only [List.zip_cons_cons, List.getElem_cons_succ]
        rw [bindLookup, ih vs j hik' hiv' hnd.2]

/-- Claim C1 (amended): for a route registered from a template whose literal
text is free of regexp metacharacters, whose placeholders each occupy a whole
path segment, and whose placeholder names are distinct, resolving the path
obtained by substituting nonempty slash-free values binds exactly the
template's parameters, in template order, each name to its substituted value,
retrievable through URLParam. -/
theorem claim_C1_amended (α : Type) (h : α) (method tmpl : List Char)
    (vals : List (List Char))
    (hdel : delimitedP (parseTemplate tmpl) = true)
    (_hsafe : litSafeP (parseTemplate tmpl) = true)
    (hlen : vals.length = (paramNamesOf (parseTemplate tmpl)).length)
    (hvals : ∀ v ∈ vals, v ≠ [] ∧ '/' ∉ v)
    (hnd : (paramNamesOf (parseTemplate tmpl)).Nodup) :
    serveList (RouterC.handle (⟨[], []⟩ : RouterC α) method tmpl h).routes method
        (renderPieces (parseTemplate tmpl) vals)
      = ServeOutcome.handled h ((paramNamesOf (parseTemplate tmpl)).zip vals)
    ∧ ∀ (i : Nat) (hik : i < (paramNamesOf (parseTemplate tmpl)).length)
        (hiv : i < vals.length),
        urlParam ((paramNamesOf (parseTemplate tmpl)).zip vals)
            (paramNamesOf (parseTemplate tmpl))[i]
          = vals[i] := by
  have hmatch : matchPieces (parseTemplate tmpl) (renderPieces (parseTemplate tmpl) vals)
      = some vals :=
    matchP_render _ _ _ hdel hlen hvals (Nat.lt_succ_self _)
  constructor
  · show serveList [((tmpl, method),
        ⟨applyMws [] h, paramNamesOf (parseTemplate tmpl), parseTemplate tmpl⟩)]
      method (renderPieces (parseTemplate tmpl) vals) = _
    simp only [serveList, hmatch, Option.isSome_some, eq_self_iff_true, true_and,
      true_or, if_true, extractParams]
    rw [zipBind_eq_zip _ _ hlen.symm]
    rfl
  · intro i hik hiv
    unfold urlParam
    rw [bindLookup_zip _ _ i hik hiv hnd]
    rfl

/-- Claim C1 counterexample: the template "/a/{x}{y}" with the substitution
x = "b", y = "cd" (nonempty, slash-free) renders the path "/a/bcd", but the
greedy capture binds x = "bc" and y = "d", so the parameter x is not mapped
to its substituted value. -/
theorem claim_C1_counterexample :
    (∀ v ∈ [lstr "b", lstr "cd"], v ≠ [] ∧ '/' ∉ v)
    ∧ renderPieces (parseTemplate (lstr "/a/{x}{y}")) [lstr "b", lstr "cd"] = lstr "/a/bcd"
    ∧ serveList (RouterC.handle (⟨[], []⟩ : RouterC Nat) (lstr "GET") (lstr "/a/{x}{y}") 0).routes
        (lstr "GET") (lstr "/a/bcd")
      = ServeOutcome.handled 0 [(lstr "x", lstr "bc"), (lstr "y", lstr "d")]
    ∧ urlParam [(lstr "x", lstr "bc"), (lstr "y", lstr "d")] (lstr "x") ≠ lstr "b" := by
  decide

theorem claim_C1_witness :
    delimitedP (parseTemplate (lstr "/users/{id}")) = true
    ∧ serveList (RouterC.handle (⟨[], []⟩ : RouterC Nat) (lstr "GET") (lstr "/users/{id}") 7).routes
        (lstr "GET") (renderPieces (parseTemplate (lstr "/users/{id}")) [lstr "42"])
      = ServeOutcome.handled 7 ((paramNamesOf (parseTemplate (lstr "/users/{id}"))).zip [lstr "42"])
    ∧ urlParam ((paramNamesOf (parseTemplate (lstr "/users/{id}"))).zip [lstr "42"])
        (paramNamesOf (parseTemplate (lstr "/users/{id}")))[0]
      = [lstr "42"][0] :=
  ⟨by decide,
   (claim_C1_amended Nat 7 (lstr "GET") (lstr "/users/{id}") [lstr "42"]
     (by decide) (by decide) (by decide) (by decide) (by decide)).1,
   (claim_C1_amended Nat 7 (lstr "GET") (lstr "/users/{id}") [lstr "42"]
     (by decide) (by decide) (by decide) (by decide) (by decide)).2 0 (by decide) (by decide)⟩
